import Mathlib

/-!
# Verification of the codecrafters-redis server core

Shallow embedding of the repository's core, translated from the Rust
sources:

* `src/stream.rs` — `ItemId` (composite entry identifiers), `Stream`
  (the ordered append-only log, a `BTreeMap<ItemId, ItemData>`) and its
  insertion rule;
* `src/store.rs`  — `DataStore` (`HashMap<String, DataValue>` behind one
  lock) with `set`, `get_ref`/`get`, `insert_stream_item`, `keys`;
* `src/resp.rs`   — the RESP wire codec (`Type`, `parse`, `write`) over a
  byte stream;
* `src/error.rs`  — the error enumeration and `redis_error_message`.

Machine integers (`u64`, `usize`, `isize`) are embedded as `Nat`/`Int`
with explicit bounds where the source imposes them.  `SystemTime` is an
abstract instant, embedded as a `Nat` passed explicitly wherever the
source calls `SystemTime::now()`.  Rust `String`s are embedded as their
UTF-8 byte sequences (`List Nat`), since the codec reads and writes
bytes; a byte list standing for a Rust `String` is by construction a
valid UTF-8 encoding, which the well-formedness predicates record.

The snapshot of `src/stream.rs` in this tree predates the rest of the
sources: `store.rs`, `client.rs` and `error.rs` use `Stream::range`,
`Stream::notify_on_insert`, `InsertListener`, `ProvidedItemId` and
`ItemIdParseError::TooLow`, none of which appear in that file.  Those
missing pieces are modelled from the specification; each such definition
carries a doc comment starting with `Modelled from the spec:`.
-/

set_option autoImplicit false

namespace Redis

/-! ## Entry identifiers (`src/stream.rs`, `struct ItemId(u64, u64)`) -/

/-- Entry identifier `ItemId(u64, u64)`: an (epoch, sequence) pair.  The Rust type derives
`PartialOrd`/`Ord` on the tuple struct, i.e. lexicographic order with the
epoch (`ms`) major and the sequence (`seq`) minor. -/
structure ItemId where
  ms : Nat
  seq : Nat
  deriving DecidableEq, Repr

/-- Lexicographic strict order on `ItemId`, as derived by Rust's
`#[derive(PartialOrd, Ord)]` on `ItemId(u64, u64)`. -/
def ItemId.lt (a b : ItemId) : Prop :=
  a.ms < b.ms ∨ (a.ms = b.ms ∧ a.seq < b.seq)

/-- Lexicographic non-strict order on `ItemId`. -/
def ItemId.le (a b : ItemId) : Prop :=
  a.ms < b.ms ∨ (a.ms = b.ms ∧ a.seq ≤ b.seq)

instance (a b : ItemId) : Decidable (ItemId.lt a b) := by
  unfold ItemId.lt; infer_instance

instance (a b : ItemId) : Decidable (ItemId.le a b) := by
  unfold ItemId.le; infer_instance

/-! ## The ordered log (`src/stream.rs`, `struct Stream`) -/

/-- Field list of one log item, `ItemData = HashMap<String, String>`,
embedded as an association list of (name, value) pairs. -/
def ItemData := List (String × String)
deriving DecidableEq, Repr

/-- The ordered log, `Stream { items: BTreeMap<ItemId, ItemData> }`,
embedded as an
association list sorted strictly ascending by key. -/
structure Stream where
  items : List (ItemId × ItemData)
  deriving DecidableEq, Repr

/-- Constructor `Stream::new()`: the empty log. -/
def Stream.new : Stream := ⟨[]⟩

/-- The `BTreeMap` sortedness invariant: keys strictly ascending. -/
def Stream.Sorted (s : Stream) : Prop :=
  s.items.Pairwise (fun a b => ItemId.lt a.1 b.1)

/-- Insertion `BTreeMap::insert` on the sorted association list: place the new key
at its ordered position, replacing an existing equal key. -/
def btreeInsert (id : ItemId) (d : ItemData) :
    List (ItemId × ItemData) → List (ItemId × ItemData)
  | [] => [(id, d)]
  | (k, v) :: tl =>
    if ItemId.lt id k then (id, d) :: (k, v) :: tl
    else if id = k then (id, d) :: tl
    else (k, v) :: btreeInsert id d tl

/-- Insertion failure `InsertionError` (`src/stream.rs`): the ordering violation, carrying
the current maximum stored id (`IdIsNotGreaterThanHighestStored`). -/
inductive InsertionError where
  | idIsNotGreaterThanHighestStored (m : ItemId)
  deriving DecidableEq, Repr

/-- Insertion `Stream::insert` with an explicitly supplied id
(`src/stream.rs:88-104`, the `Some(id)` branch; the auto-generation
branch is `todo!()` in the source and is not embedded): if the map has a
last (i.e. greatest) key `last_key` and `last_key >= id`, fail with
`IdIsNotGreaterThanHighestStored(last_key)`; otherwise insert `(id, data)`
into the map and return `id`. -/
def Stream.insert (s : Stream) (id : ItemId) (data : ItemData) :
    Except InsertionError (ItemId × Stream) :=
  match s.items.getLast? with
  | some last =>
    if ItemId.le id last.1 then
      .error (.idIsNotGreaterThanHighestStored last.1)
    else
      .ok (id, ⟨btreeInsert id data s.items⟩)
  | none => .ok (id, ⟨btreeInsert id data s.items⟩)

/-- The current maximum stored id of a log, with the implicit floor
`0-0` for the empty log (spec §4.3: "the log starts with an implicit
floor of 0-0").  On a sorted `BTreeMap` the maximum is the last key. -/
def Stream.maxId (s : Stream) : ItemId :=
  match s.items.getLast? with
  | some last => last.1
  | none => ⟨0, 0⟩

/-! ## Explicit-id parse errors and the 0-0 floor -/

/-- Parse errors `ItemIdParseError` (`src/stream.rs`), plus the `TooLow` variant that
`error.rs` matches on (`ItemIdParseError::TooLow`) but which is absent
from the stale `src/stream.rs` snapshot.  `TooLow` is Modelled from the
spec: supplying the explicit id `0-0` "is never itself a legal explicit
assignment" (§4.3) and renders as "must be greater than 0-0" (§7). -/
inductive ItemIdParseError where
  | missingDash
  | tooManyDashes
  | notANumber (s : String)
  | tooLow
  deriving DecidableEq, Repr

/-- The error enumeration (`src/error.rs`), restricted to the variants
the embedded operations produce.  `outOfFuel` is an artifact of the
embedding of the recursive parser (never produced when the fuel bound of
the theorems holds); `asyncIoEof` stands for the `AsyncIoError` raised
when the byte source is exhausted. -/
inductive Error where
  | asyncIoEof
  | utf8Error
  | praseIntError
  | unknownTypeSpecifier (b : Nat)
  | invalidCrLfTerminator (a b : Nat)
  | expectedOtherType (s : String)
  | streamInsertError (e : InsertionError)
  | itemIdParseError (e : ItemIdParseError)
  | outOfFuel
  deriving DecidableEq, Repr

/-- Modelled from the spec: the explicit-id insertion path of `XADD`.
The repository parses the textual id into a `ProvidedItemId`
(`store.rs`/`client.rs` use it; the type is absent from the stale
`src/stream.rs`), rejecting the explicit id `0-0` with
`ItemIdParseError::TooLow` (the variant `error.rs` renders as "must be
greater than 0-0"); any other explicit id is handed to `Stream::insert`.
This definition composes that floor check with the embedded
`Stream.insert`. -/
def Stream.xaddExplicit (s : Stream) (id : ItemId) (data : ItemData) :
    Except Error (ItemId × Stream) :=
  if id = ⟨0, 0⟩ then
    .error (.itemIdParseError .tooLow)
  else
    match s.insert id data with
    | .error e => .error (.streamInsertError e)
    | .ok r => .ok r

/-! ## Range queries (`Stream::range`, used by `client.rs`) -/

/-- Range bounds, as `std::ops::Bound<ItemId>` is used by
`Client::handle_xrange` / `handle_xread` (`src/client.rs`). -/
inductive RBound where
  | included (id : ItemId)
  | excluded (id : ItemId)
  | unbounded
  deriving DecidableEq, Repr

/-- Containment test of a key against the lower bound. -/
def RBound.lowerOk (lo : RBound) (k : ItemId) : Bool :=
  match lo with
  | .included i => decide (ItemId.le i k)
  | .excluded i => decide (ItemId.lt i k)
  | .unbounded => true

/-- Containment test of a key against the upper bound. -/
def RBound.upperOk (hi : RBound) (k : ItemId) : Bool :=
  match hi with
  | .included i => decide (ItemId.le k i)
  | .excluded i => decide (ItemId.lt k i)
  | .unbounded => true

/-- Modelled from the spec: `Stream::range(start, end)` (absent from the
stale `src/stream.rs`; `client.rs` calls it for `XRANGE` and `XREAD`).
It stands for `BTreeMap::range`, which iterates in ascending key order
the contiguous run of entries lying within the bounds: skip the initial
ordered run below the lower bound, then yield entries while the upper
bound accepts them. -/
def Stream.range (s : Stream) (lo hi : RBound) : List (ItemId × ItemData) :=
  (s.items.dropWhile (fun p => ! lo.lowerOk p.1)).takeWhile
    (fun p => hi.upperOk p.1)

/-- The non-blocking check of `Client::handle_xread`
(`src/client.rs:321-324`): everything strictly after the cursor,
`range(Bound::Excluded(start), Bound::Unbounded)`. -/
def Stream.xreadCheck (s : Stream) (start : ItemId) :
    List (ItemId × ItemData) :=
  s.range (.excluded start) .unbounded

/-! ## Textual Entry-ID parsing (`TryFrom<&str> for ItemId`) -/

/-- Digit value of an ASCII decimal digit character, else `none`. -/
def charDigit? (c : Char) : Option Nat :=
  if 48 ≤ c.toNat ∧ c.toNat ≤ 57 then some (c.toNat - 48) else none

/-- Accumulating decimal fold over characters, `none` on a non-digit. -/
def parseU64Chars : List Char → Nat → Option Nat
  | [], acc => some acc
  | c :: tl, acc =>
    match charDigit? c with
    | some d => parseU64Chars tl (acc * 10 + d)
    | none => none

/-- Rust `str::parse::<u64>`: an optional leading `+`, then one or more
decimal digits, rejecting values outside `u64` range. -/
def parseU64 (s : String) : Option Nat :=
  match s.data with
  | [] => none
  | c :: tl =>
    let digits := if c = '+' then tl else c :: tl
    match digits with
    | [] => none
    | _ =>
      match parseU64Chars digits 0 with
      | some n => if n < 2 ^ 64 then some n else none
      | none => none

/-- Textual Entry-ID parsing, `TryFrom<&str> for ItemId`
(`src/stream.rs:35-57`): split on `-`; no separator is `MissingDash`,
more than one is `TooManyDashes`, and each component must parse as a
`u64`, else `NotANumber` citing the offending component. -/
def ItemId.tryFrom (value : String) : Except ItemIdParseError ItemId :=
  match value.splitOn "-" with
  | [] => .error .missingDash
  | [_] => .error .missingDash
  | [t, c] =>
    match parseU64 t with
    | none => .error (.notANumber t)
    | some tv =>
      match parseU64 c with
      | none => .error (.notANumber c)
      | some cv => .ok ⟨tv, cv⟩
  | _ => .error .tooManyDashes

/-- Cursor parsing in `Client::handle_xread`
(`src/client.rs:276-282`): the literal `$` becomes
`ItemId::new(now, 0)` — `now` being the current wall-clock time in
milliseconds computed at the top of `handle_xread` — and anything else
goes through `TryFrom<&str> for ItemId`. -/
def parse_item_id (value : String) (now : Nat) : Except Error ItemId :=
  if value = "$" then .ok ⟨now, 0⟩
  else
    match ItemId.tryFrom value with
    | .error e => .error (.itemIdParseError e)
    | .ok i => .ok i

/-! ## The keyed store (`src/store.rs`) -/

/-- Stored value variants (`enum Value`): a text string or an ordered
log. -/
inductive Value where
  | string (s : String)
  | stream (s : Stream)
  deriving DecidableEq, Repr

/-- One store entry (`struct DataValue`): a value plus an optional
absolute expiry instant. -/
structure DataValue where
  value : Value
  expires_at : Option Nat
  deriving DecidableEq, Repr

/-- Liveness of an entry at an instant: no expiry, or the instant is
strictly before the expiry (`expires_at <= now` is treated as expired by
every accessor in `store.rs`). -/
def DataValue.live (dv : DataValue) (now : Nat) : Prop :=
  dv.expires_at = none ∨ ∃ e, dv.expires_at = some e ∧ now < e

instance (dv : DataValue) (now : Nat) : Decidable (dv.live now) := by
  unfold DataValue.live; infer_instance

/-- The shared map (`HashMap<String, DataValue>`), embedded as an
association list with at most one binding per key maintained by
`hashInsert`. -/
structure DataStore where
  data : List (String × DataValue)
  deriving DecidableEq, Repr

/-- Lookup `HashMap::get`: the binding of a key, if any. -/
def hashLookup {β : Type} (k : String) : List (String × β) → Option β
  | [] => none
  | (k2, v) :: tl => if k2 = k then some v else hashLookup k tl

/-- Insertion `HashMap::insert`: bind the key to the value and return the previous
binding, if any. -/
def hashInsert {β : Type} (k : String) (v : β) :
    List (String × β) → Option β × List (String × β)
  | [] => (none, [(k, v)])
  | (k2, v2) :: tl =>
    if k2 = k then (some v2, (k, v) :: tl)
    else
      let r := hashInsert k v tl
      (r.1, (k2, v2) :: r.2)

/-- Operation `DataStore::set` (`src/store.rs:188-205`): capture `now`, insert the
new entry unconditionally, and return the previous value only if it was
live at `now` (`and_then` with the expiry guard). -/
def DataStore.set (st : DataStore) (now : Nat) (key : String)
    (value : Value) (expires_at : Option Nat) : Option Value × DataStore :=
  let r := hashInsert key ⟨value, expires_at⟩ st.data
  (r.1.bind fun v =>
    match v.expires_at with
    | some e => if e ≤ now then none else some v.value
    | none => some v.value,
   ⟨r.2⟩)

/-- Operation `DataStore::get_ref` (`src/store.rs:207-218`): apply a read-only
projection to the value if the entry exists and is live at `now`, else
`none`.  The projection is generic, as in the source. -/
def DataStore.get_ref {T : Type} (st : DataStore) (now : Nat)
    (key : String) (op : Value → T) : Option T :=
  (hashLookup key st.data).bind fun v =>
    match v.expires_at with
    | some e => if e ≤ now then none else some (op v.value)
    | none => some (op v.value)

/-- Operation `DataStore::get`: `get_ref` with a cloning projection. -/
def DataStore.get (st : DataStore) (now : Nat) (key : String) :
    Option Value :=
  st.get_ref now key (fun v => v)

/-- Operation `DataStore::insert_stream_item` (`src/store.rs:224-243`):
`entry(key).or_insert_with(empty stream, no expiry)`, then
`as_stream_mut` (a non-log entry fails with `ExpectedOtherType`), then
the log's insertion rule.  No expiry check appears anywhere on this
path.  For the explicit-id insertions embedded here the vacant case
cannot fail (an empty log accepts every id), so returning no store on
error loses no mutation. -/
def DataStore.insert_stream_item (st : DataStore) (key : String)
    (id : ItemId) (data : ItemData) : Except Error (ItemId × DataStore) :=
  match hashLookup key st.data with
  | none =>
    match Stream.new.insert id data with
    | .error e => .error (.streamInsertError e)
    | .ok (i, s2) =>
      .ok (i, ⟨(hashInsert key ⟨.stream s2, none⟩ st.data).2⟩)
  | some dv =>
    match dv.value with
    | .string _ => .error (.expectedOtherType "stream")
    | .stream s =>
      match s.insert id data with
      | .error e => .error (.streamInsertError e)
      | .ok (i, s2) =>
        .ok (i, ⟨(hashInsert key ⟨.stream s2, dv.expires_at⟩ st.data).2⟩)

/-- Operation `DataStore::keys` (`src/store.rs:266-268`): clone every key of the
map — no expiry filtering of any kind. -/
def DataStore.keys (st : DataStore) : List String :=
  st.data.map Prod.fst

/-! ## One-shot insert notification -/

/-- Modelled from the spec: the current `Stream` additionally carries
its key and a set of registered one-shot insert listeners
(`Stream::new(key)`, `notify_on_insert`, `InsertListener =
mpsc::Sender<(String, ItemId, ItemData)>` — all used by `store.rs` and
`client.rs` but absent from the stale `src/stream.rs`).  A listener is
an abstract channel handle (`Nat`); a delivery is the tuple the channel
carries. -/
structure NotifyingStream where
  key : String
  items : List (ItemId × ItemData)
  listeners : List Nat
  deriving DecidableEq, Repr

/-- Modelled from the spec: `Stream::notify_on_insert` registers one
listener for the next insertion (§4.3: "registers a one-shot listener on
the key's log"). -/
def NotifyingStream.notify_on_insert (s : NotifyingStream) (l : Nat) :
    NotifyingStream :=
  { s with listeners := s.listeners ++ [l] }

/-- Modelled from the spec: insertion with notification.  The ordering
rule is exactly the embedded `Stream.insert`; on success "the next
single insertion into that log (from any producer) delivers the inserted
item to every currently-registered listener exactly once" (§4.3), and the
listener set is cleared (one-shot; a listener "must re-register").  On
failure the insertion is atomic — no delivery, no deregistration. -/
def NotifyingStream.insert (s : NotifyingStream) (id : ItemId)
    (data : ItemData) :
    Except InsertionError
      ((ItemId × NotifyingStream) × List (Nat × String × ItemId × ItemData)) :=
  match s.items.getLast? with
  | some last =>
    if ItemId.le id last.1 then
      .error (.idIsNotGreaterThanHighestStored last.1)
    else
      .ok ((id, ⟨s.key, btreeInsert id data s.items, []⟩),
        s.listeners.map (fun l => (l, s.key, id, data)))
  | none =>
    .ok ((id, ⟨s.key, btreeInsert id data s.items, []⟩),
      s.listeners.map (fun l => (l, s.key, id, data)))

/-! ## The RESP wire codec (`src/resp.rs`)

Byte values used below: `43 = '+'`, `36 = '$'`, `42 = '*'`, `95 = '_'`,
`45 = '-'`, `32 = ' '`, `13 = CR`, `10 = LF`, `48..57 = '0'..'9'`,
`69 = 'E'`, `82 = 'R'`. -/

/-- Error kinds rendered in simple errors (`enum ErrorKind` in
`src/error.rs`; its `Display` writes `ERR` for `Generic`). -/
inductive ErrorKind where
  | generic
  deriving DecidableEq, Repr

/-- UTF-8 bytes of an error kind's rendering (`"ERR"`). -/
def ErrorKind.bytes : ErrorKind → List Nat
  | .generic => [69, 82, 82]

/-- Wire values (`enum Type` in `src/resp.rs`; named `RespType` here
because `Type` is reserved in Lean).  Textual payloads are the UTF-8
bytes of the Rust `String`s. -/
inductive RespType where
  | simpleError (kind : ErrorKind) (msg : List Nat)
  | simpleString (s : List Nat)
  | bulkString (s : List Nat)
  | nullString
  | array (elems : List RespType)
  | nullArray
  | null

/-- Little-endian base-10 digits with explicit fuel (any fuel of at
least `n` steps computes all digits, since `n / 10 < n` for positive
`n`). -/
def toDigitsRev : Nat → Nat → List Nat
  | 0, _ => []
  | fuel + 1, n => if n = 0 then [] else n % 10 :: toDigitsRev fuel (n / 10)

/-- Decimal ASCII rendering of a `usize`/`u64`
(`value.len().to_string()`). -/
def natDecBytes (n : Nat) : List Nat :=
  if n = 0 then [48] else (toDigitsRev (n + 1) n).reverse.map (fun d => d + 48)

mutual

/-- Encoding `Type::write` / `write_impl` (`src/resp.rs:138-201`): the
deterministic encodings — simple error `-{kind} {message}\r\n`; simple
string `+{text}\r\n`; bulk string `${len}\r\n{text}\r\n`; null bulk
string `$-1\r\n`; array `*{count}\r\n` then each element's encoding;
null array `*-1\r\n`; null `_\r\n`.  As in the source, no validation
that simple-type payloads omit CR/LF. -/
def RespType.write : RespType → List Nat
  | .simpleError kind msg => 45 :: kind.bytes ++ [32] ++ msg ++ [13, 10]
  | .simpleString s => 43 :: s ++ [13, 10]
  | .bulkString s => 36 :: natDecBytes s.length ++ [13, 10] ++ s ++ [13, 10]
  | .nullString => [36, 45, 49, 13, 10]
  | .array l => 42 :: natDecBytes l.length ++ [13, 10] ++ writeElems l
  | .nullArray => [42, 45, 49, 13, 10]
  | .null => [95, 13, 10]

/-- Concatenated encodings of array elements (the `for` loop of
`write_array`). -/
def writeElems : List RespType → List Nat
  | [] => []
  | v :: tl => RespType.write v ++ writeElems tl

end

/-- Byte test: not CR and not LF. -/
def notCrLf (b : Nat) : Bool := !(b == 13) && !(b == 10)

/-- A payload contains no CR and no LF byte. -/
def noCrLf (s : List Nat) : Bool := s.all notCrLf

/-- UTF-8 continuation byte (`0x80..0xBF`). -/
def isCont (b : Nat) : Bool := 128 ≤ b && b ≤ 191

/-- UTF-8 validity of a byte sequence (`str::from_utf8` succeeds iff this
holds): ASCII, or a correctly ranged 2-, 3- or 4-byte sequence per
RFC 3629 — which is exactly the check Rust's `from_utf8` performs. -/
def utf8Valid : List Nat → Bool
  | [] => true
  | b :: rest =>
    if b ≤ 127 then utf8Valid rest
    else if 194 ≤ b && b ≤ 223 then
      match rest with
      | c1 :: rest2 => isCont c1 && utf8Valid rest2
      | [] => false
    else if b = 224 then
      match rest with
      | c1 :: c2 :: rest2 =>
        (160 ≤ c1 && c1 ≤ 191) && isCont c2 && utf8Valid rest2
      | _ => false
    else if (225 ≤ b && b ≤ 236) || b = 238 || b = 239 then
      match rest with
      | c1 :: c2 :: rest2 => isCont c1 && isCont c2 && utf8Valid rest2
      | _ => false
    else if b = 237 then
      match rest with
      | c1 :: c2 :: rest2 =>
        (128 ≤ c1 && c1 ≤ 159) && isCont c2 && utf8Valid rest2
      | _ => false
    else if b = 240 then
      match rest with
      | c1 :: c2 :: c3 :: rest2 =>
        (144 ≤ c1 && c1 ≤ 191) && isCont c2 && isCont c3 && utf8Valid rest2
      | _ => false
    else if 241 ≤ b && b ≤ 243 then
      match rest with
      | c1 :: c2 :: c3 :: rest2 =>
        isCont c1 && isCont c2 && isCont c3 && utf8Valid rest2
      | _ => false
    else if b = 244 then
      match rest with
      | c1 :: c2 :: c3 :: rest2 =>
        (128 ≤ c1 && c1 ≤ 143) && isCont c2 && isCont c3 && utf8Valid rest2
      | _ => false
    else false

mutual

/-- Well-formedness for the round-trip: the value contains no
simple-error variant (the parser has no `-` branch), every textual
payload is valid UTF-8 with no embedded CR/LF, and every length fits in
`isize` (Rust allocations never exceed `isize::MAX` bytes, so every
constructible value satisfies this). -/
def RespType.wf : RespType → Bool
  | .simpleError _ _ => false
  | .simpleString s => noCrLf s && utf8Valid s
  | .bulkString s => noCrLf s && utf8Valid s && decide (s.length < 2 ^ 63)
  | .nullString => true
  | .array l => decide (l.length < 2 ^ 63) && wfElems l
  | .nullArray => true
  | .null => true

/-- Conjunction of `RespType.wf` over array elements. -/
def wfElems : List RespType → Bool
  | [] => true
  | v :: tl => RespType.wf v && wfElems tl

end

mutual

/-- Nesting depth of a wire value (arrays add a level).  The parser's
fuel must dominate it; the claim's "bounded nesting depth" is this bound,
and every value's depth is finite. -/
def RespType.depth : RespType → Nat
  | .array l => 1 + depthElems l
  | _ => 1

/-- Maximum depth over array elements. -/
def depthElems : List RespType → Nat
  | [] => 0
  | v :: tl => max (RespType.depth v) (depthElems tl)

end

/-- One byte from the source (`read_u8`); exhaustion is an I/O error. -/
def readByte : List Nat → Except Error (Nat × List Nat)
  | [] => .error .asyncIoEof
  | b :: rest => .ok (b, rest)

/-- Helper `read_until_crlf` (`src/resp.rs:112-129`): collect bytes until CR;
the byte after a CR must be LF, else `InvalidCrLfTerminator` citing both
observed bytes. -/
def readUntilCrlf : List Nat → Except Error (List Nat × List Nat)
  | [] => .error .asyncIoEof
  | b :: rest =>
    if b = 13 then
      match rest with
      | [] => .error .asyncIoEof
      | b2 :: rest2 =>
        if b2 = 10 then .ok ([], rest2)
        else .error (.invalidCrLfTerminator 13 b2)
    else
      match readUntilCrlf rest with
      | .error e => .error e
      | .ok (buf, rest2) => .ok (b :: buf, rest2)

/-- Helper `expect_crlf` (`src/resp.rs:102-110`): read exactly two bytes and
require them to be CR LF. -/
def expectCrlf : List Nat → Except Error (List Nat)
  | a :: b :: rest =>
    if a = 13 ∧ b = 10 then .ok rest
    else .error (.invalidCrLfTerminator a b)
  | _ => .error .asyncIoEof

/-- Helper `read_exact` into an `n`-byte buffer. -/
def readExact (n : Nat) (l : List Nat) : Except Error (List Nat × List Nat) :=
  if l.length < n then .error .asyncIoEof else .ok (l.take n, l.drop n)

/-- Digit value of an ASCII decimal digit byte, else `none`. -/
def digit? (b : Nat) : Option Nat :=
  if 48 ≤ b ∧ b ≤ 57 then some (b - 48) else none

/-- Accumulating decimal fold over bytes, `none` on a non-digit. -/
def parseDigitsAux : List Nat → Nat → Option Nat
  | [], acc => some acc
  | b :: tl, acc =>
    match digit? b with
    | some d => parseDigitsAux tl (acc * 10 + d)
    | none => none

/-- Decimal value of a non-empty all-digit byte sequence. -/
def parseDigits (l : List Nat) : Option Nat :=
  if l = [] then none else parseDigitsAux l 0

/-- Rust `str::parse::<isize>` on the collected bytes: optional sign,
one or more digits, rejecting values outside the 64-bit `isize` range
(the `ParseIntError` case of the source, whose `Error` variant keeps the
source's spelling `PraseIntError`). -/
def parseIsizeBytes (l : List Nat) : Except Error Int :=
  match l with
  | [] => .error .praseIntError
  | b :: tl =>
    if b = 45 then
      match parseDigits tl with
      | some n => if n ≤ 2 ^ 63 then .ok (-(n : Int)) else .error .praseIntError
      | none => .error .praseIntError
    else if b = 43 then
      match parseDigits tl with
      | some n => if n < 2 ^ 63 then .ok (n : Int) else .error .praseIntError
      | none => .error .praseIntError
    else
      match parseDigits (b :: tl) with
      | some n => if n < 2 ^ 63 then .ok (n : Int) else .error .praseIntError
      | none => .error .praseIntError

/-- Helper `parse_isize` (`src/resp.rs:96-100`): a line up to CRLF parsed as a
signed decimal. -/
def parseIsizeLine (l : List Nat) : Except Error (Int × List Nat) :=
  match readUntilCrlf l with
  | .error e => .error e
  | .ok (buf, rest) =>
    match parseIsizeBytes buf with
    | .error e => .error e
    | .ok n => .ok (n, rest)

/-- Helper `parse_simple_string` (`src/resp.rs:75-79`): bytes up to CRLF,
validated as UTF-8. -/
def parseSimple (l : List Nat) : Except Error (RespType × List Nat) :=
  match readUntilCrlf l with
  | .error e => .error e
  | .ok (buf, rest) =>
    if utf8Valid buf then .ok (.simpleString buf, rest)
    else .error .utf8Error

/-- Helper `parse_bulk_string` (`src/resp.rs:81-94`): a signed decimal length
line; negative means null bulk string, otherwise exactly that many bytes
plus CRLF, validated as UTF-8. -/
def parseBulk (l : List Nat) : Except Error (RespType × List Nat) :=
  match parseIsizeLine l with
  | .error e => .error e
  | .ok (n, rest) =>
    if n < 0 then .ok (.nullString, rest)
    else
      match readExact n.toNat rest with
      | .error e => .error e
      | .ok (buf, rest2) =>
        match expectCrlf rest2 with
        | .error e => .error e
        | .ok rest3 =>
          if utf8Valid buf then .ok (.bulkString buf, rest3)
          else .error .utf8Error

/-- The element loop of `parse_array` (`src/resp.rs:57-73`): parse `n`
wire values in sequence, each via the given element parser
(`Type::parse`, passed in so that the whole parser is structural in its
fuel). -/
def parseNGen (pt : List Nat → Except Error (RespType × List Nat)) :
    Nat → List Nat → Except Error (List RespType × List Nat)
  | 0, l => .ok ([], l)
  | n + 1, l =>
    match pt l with
    | .error e => .error e
    | .ok (v, rest) =>
      match parseNGen pt n rest with
      | .error e => .error e
      | .ok (vs, rest2) => .ok (v :: vs, rest2)

/-- Parsing `Type::parse` / `parse_impl` (`src/resp.rs:41-50`): dispatch on the
leading type byte — `+` simple string, `$` bulk string, `*` array, `_`
null; any other byte fails with `UnknownTypeSpecifier` citing the byte.
There is no branch for `-`.  The source's recursion is unbounded; this
embedding threads explicit fuel, consumed once per nesting level. -/
def parseT : Nat → List Nat → Except Error (RespType × List Nat)
  | 0, _ => .error .outOfFuel
  | fuel + 1, l =>
    match readByte l with
    | .error e => .error e
    | .ok (b, rest) =>
      if b = 43 then parseSimple rest
      else if b = 36 then parseBulk rest
      else if b = 42 then
        match parseIsizeLine rest with
        | .error e => .error e
        | .ok (n, rest2) =>
          if n < 0 then .ok (.nullArray, rest2)
          else
            match parseNGen (parseT fuel) n.toNat rest2 with
            | .error e => .error e
            | .ok (elems, rest3) => .ok (.array elems, rest3)
      else if b = 95 then
        match expectCrlf rest with
        | .error e => .error e
        | .ok rest2 => .ok (.null, rest2)
      else .error (.unknownTypeSpecifier b)

/-- The parser entry point `Type::parse` on a byte sequence.  Fuel
`length + 1` always suffices: every nesting level first consumes at
least one byte. -/
def RespType.parse (l : List Nat) : Except Error (RespType × List Nat) :=
  parseT (l.length + 1) l

/-! ## Client-visible error messages (`src/error.rs`) -/

/-- The apostrophe, as a string. -/
def sq : String := String.singleton (Char.ofNat 39)

/-- Rendering of `InsertionError` per its `thiserror` attribute (note the
source's trailing space, and that the stored id is not interpolated). -/
def InsertionError.display : InsertionError → String
  | .idIsNotGreaterThanHighestStored _ =>
    "New entry has to have ID higher than the latest one "

/-- Rendering of `ItemIdParseError` per its `thiserror` attributes (note
the source's unbalanced quote in `NotANumber`).  The `tooLow` rendering
is Modelled from the spec, since the variant is absent from the stale
`src/stream.rs`; it is never reached through `redis_error_message`,
which special-cases `TooLow` before falling back to this rendering. -/
def ItemIdParseError.display : ItemIdParseError → String
  | .missingDash => "The item id is missing the " ++ sq ++ "-" ++ sq ++ " separator"
  | .tooManyDashes =>
    "The item id has too many " ++ sq ++ "-" ++ sq ++
      " separators - only one is allowed"
  | .notANumber s => sq ++ s ++ " is not a valid number for item id"
  | .tooLow => "The item id must be greater than 0-0"

/-- Rendering of `Error` per its `thiserror` attributes.  The numeric
debug renderings of `UnknownTypeSpecifier` and `InvalidCrLfTerminator`
are approximated (the source debug-prints the byte as a char as well);
no claim depends on them — `redis_error_message` is evaluated only on
its two special-cased variants. -/
def Error.display : Error → String
  | .asyncIoEof => "I/O error"
  | .utf8Error => "Invalid UTF-8 sequence"
  | .praseIntError => "Parse error (int)"
  | .unknownTypeSpecifier b => "Unknown type specifier (" ++ toString b ++ ")"
  | .invalidCrLfTerminator a b =>
    "Invalid CR LF terminator (" ++ toString a ++ ", " ++ toString b ++ ")"
  | .expectedOtherType s =>
    "Expected " ++ sq ++ s ++ sq ++ ", but got something else"
  | .streamInsertError e => "Failed to insert into stream: " ++ e.display
  | .itemIdParseError e => "Failed to parse item id: " ++ e.display
  | .outOfFuel => "out of fuel"

/-- Rendering `Error::redis_error_message` (`src/error.rs:76-86`): the two
documented mappings — an ordering violation and a too-low Entry ID —
plus a catch-all internal-error rendering. -/
def Error.redis_error_message (e : Error) (cmd : String) : String :=
  match e with
  | .streamInsertError (.idIsNotGreaterThanHighestStored _) =>
    "The ID specified in " ++ cmd ++
      " is equal or smaller than the target stream top item"
  | .itemIdParseError .tooLow =>
    "The ID specified in " ++ cmd ++ " must be greater than 0-0"
  | other => "Internal Error in " ++ cmd ++ ": " ++ other.display

/-! ## Concrete fixtures used by witnesses and examples -/

/-- The four-item log of the spec's range-query example:
items `1-1`, `1-2`, `2-1`, `3-1`. -/
def exampleLog : Stream :=
  ⟨[(⟨1, 1⟩, [("a", "b")]), (⟨1, 2⟩, [("c", "d")]),
    (⟨2, 1⟩, [("e", "f")]), (⟨3, 1⟩, [("g", "h")])]⟩

/-- A log holding one item whose epoch lies above the example wall-clock
instant used in the XREAD `$` example. -/
def futureLog : Stream := ⟨[(⟨5, 0⟩, [("x", "y")])]⟩

/-- A store with one key whose entry (a log holding `1-1`) expired at
instant 5. -/
def expiredStreamStore : DataStore :=
  ⟨[("s", ⟨.stream ⟨[(⟨1, 1⟩, [])]⟩, some 5⟩)]⟩

/-- A store with one key whose entry (a string) expired at instant 5. -/
def expiredStringStore : DataStore :=
  ⟨[("k", ⟨.string "v", some 5⟩)]⟩

/-! ### Facts about sorted logs -/

theorem ItemId.not_lt {a b : ItemId} : ¬ ItemId.lt a b ↔ ItemId.le b a := by
  cases a; cases b; simp only [ItemId.lt, ItemId.le]; omega

theorem ItemId.not_le {a b : ItemId} : ¬ ItemId.le a b ↔ ItemId.lt b a := by
  cases a; cases b; simp only [ItemId.lt, ItemId.le]; omega

theorem ItemId.lt_irrefl (a : ItemId) : ¬ ItemId.lt a a := by
  cases a; simp only [ItemId.lt]; omega

theorem ItemId.lt_trans {a b c : ItemId} :
    ItemId.lt a b → ItemId.lt b c → ItemId.lt a c := by
  cases a; cases b; cases c; simp only [ItemId.lt]; omega

theorem ItemId.le_refl (a : ItemId) : ItemId.le a a :=
  Or.inr ⟨rfl, Nat.le_refl _⟩

theorem ItemId.lt_of_lt_of_le {a b c : ItemId} :
    ItemId.lt a b → ItemId.le b c → ItemId.lt a c := by
  cases a; cases b; cases c; simp only [ItemId.lt, ItemId.le]; omega

theorem ItemId.le_of_lt {a b : ItemId} : ItemId.lt a b → ItemId.le a b := by
  cases a; cases b; simp only [ItemId.lt, ItemId.le]; omega

/-- Identifier `0-0` is the least in the lexicographic order. -/
theorem ItemId.zero_le (a : ItemId) : ItemId.le ⟨0, 0⟩ a := by
  cases a; simp only [ItemId.le]; omega

theorem ItemId.le_zero_iff {a : ItemId} : ItemId.le a ⟨0, 0⟩ ↔ a = ⟨0, 0⟩ := by
  cases a; simp only [ItemId.le, ItemId.mk.injEq]; omega

theorem pairwise_le_getLast {l : List (ItemId × ItemData)}
    (h : l.Pairwise (fun a b => ItemId.lt a.1 b.1)) {p : ItemId × ItemData}
    (hp : p ∈ l) {last : ItemId × ItemData} (hl : l.getLast? = some last) :
    ItemId.le p.1 last.1 := by
  induction l with
  | nil => cases hp
  | cons hd tl ih =>
    rcases List.pairwise_cons.mp h with ⟨hhd, htl⟩
    cases tl with
    | nil =>
      have hp1 : p = hd := by simpa using hp
      have hl1 : last = hd := by
        simp only [List.getLast?_singleton, Option.some.injEq] at hl
        exact hl.symm
      rw [hp1, hl1]; exact ItemId.le_refl _
    | cons h2 t2 =>
      rw [List.getLast?_cons_cons] at hl
      rcases List.mem_cons.mp hp with hp1 | hp1
      · have hmem : last ∈ h2 :: t2 := List.mem_of_mem_getLast? (by rw [hl]; rfl)
        rw [hp1]
        exact ItemId.le_of_lt (hhd last hmem)
      · exact ih htl hp1 hl

/-- In a sorted log, every stored id is at most `maxId`: the last key of
the `BTreeMap` really is the maximum. -/
theorem Stream.le_maxId {s : Stream} (h : s.Sorted) :
    ∀ p ∈ s.items, ItemId.le p.1 s.maxId := by
  intro p hp
  unfold Stream.maxId
  cases hl : s.items.getLast? with
  | none =>
    rcases s with ⟨items⟩
    cases items with
    | nil => cases hp
    | cons hd tl => rw [List.getLast?_eq_none_iff] at hl; cases hl
  | some last => exact pairwise_le_getLast h hp hl

/-! ### Rewrite lemmas for the insertion path -/

theorem Stream.insert_of_le {s : Stream} {x : ItemId} {d : ItemData}
    {last : ItemId × ItemData} (hl : s.items.getLast? = some last)
    (hle : ItemId.le x last.1) :
    s.insert x d = .error (.idIsNotGreaterThanHighestStored last.1) := by
  unfold Stream.insert; rw [hl]; exact if_pos hle

theorem Stream.insert_of_gt {s : Stream} {x : ItemId} {d : ItemData}
    {last : ItemId × ItemData} (hl : s.items.getLast? = some last)
    (hle : ¬ ItemId.le x last.1) :
    s.insert x d = .ok (x, ⟨btreeInsert x d s.items⟩) := by
  unfold Stream.insert; rw [hl]; exact if_neg hle

theorem Stream.insert_of_empty {s : Stream} {x : ItemId} {d : ItemData}
    (hl : s.items.getLast? = none) :
    s.insert x d = .ok (x, ⟨btreeInsert x d s.items⟩) := by
  unfold Stream.insert; rw [hl]

theorem Stream.maxId_of_last {s : Stream} {last : ItemId × ItemData}
    (hl : s.items.getLast? = some last) : s.maxId = last.1 := by
  unfold Stream.maxId; rw [hl]

theorem Stream.maxId_of_empty {s : Stream}
    (hl : s.items.getLast? = none) : s.maxId = ⟨0, 0⟩ := by
  unfold Stream.maxId; rw [hl]

theorem Stream.xaddExplicit_zero (s : Stream) (d : ItemData) :
    Stream.xaddExplicit s ⟨0, 0⟩ d = .error (.itemIdParseError .tooLow) := by
  unfold Stream.xaddExplicit; exact if_pos rfl

theorem Stream.xaddExplicit_ne_zero {s : Stream} {x : ItemId}
    (d : ItemData) (hx : x ≠ ⟨0, 0⟩) :
    Stream.xaddExplicit s x d = (match s.insert x d with
      | .error e => .error (.streamInsertError e)
      | .ok r => .ok r) := by
  unfold Stream.xaddExplicit; exact if_neg hx

/-- C1: Inserting an explicitly supplied Entry ID `X` into an ordered
log with current maximum stored ID `M` (implicit floor `0-0` on the empty
log) fails if and only if `X ≤ M` in lexicographic order — in particular
`0-0` always fails, since it is `≤` every maximum — and any returned
ordering error carries exactly the current maximum `M`. -/
theorem xadd_explicit_fails_iff_le_max (s : Stream) (x : ItemId)
    (d : ItemData) (hs : s.Sorted) :
    ((Stream.xaddExplicit s x d).isOk = false ↔ ItemId.le x s.maxId) ∧
    (∀ m, Stream.xaddExplicit s x d =
        .error (.streamInsertError (.idIsNotGreaterThanHighestStored m)) →
      m = s.maxId) := by
  clear hs
  by_cases hx : x = ⟨0, 0⟩
  · subst hx
    rw [Stream.xaddExplicit_zero]
    constructor
    · constructor
      · intro _; exact ItemId.zero_le _
      · intro _; rfl
    · intro m hm; exact Except.noConfusion hm (fun h => Error.noConfusion h)
  · rw [Stream.xaddExplicit_ne_zero d hx]
    cases hl : s.items.getLast? with
    | none =>
      rw [Stream.insert_of_empty hl, Stream.maxId_of_empty hl]
      constructor
      · constructor
        · intro h; exact Bool.noConfusion h
        · intro h; exact absurd (ItemId.le_zero_iff.mp h) hx
      · intro m hm; exact Except.noConfusion hm
    | some last =>
      rw [Stream.maxId_of_last hl]
      by_cases hle : ItemId.le x last.1
      · rw [Stream.insert_of_le hl hle]
        constructor
        · constructor
          · intro _; exact hle
          · intro _; rfl
        · intro m hm
          simp only [Except.error.injEq, Error.streamInsertError.injEq,
            InsertionError.idIsNotGreaterThanHighestStored.injEq] at hm
          exact hm.symm
      · rw [Stream.insert_of_gt hl hle]
        constructor
        · constructor
          · intro h; exact Bool.noConfusion h
          · intro h; exact absurd h hle
        · intro m hm; exact Except.noConfusion hm

/-- Witness for C1 at the headline instance: the empty log (implicit
floor `0-0`) and the explicit id `0-0`. -/
theorem xadd_explicit_fails_iff_le_max_witness :
    Stream.Sorted Stream.new ∧
    (((Stream.xaddExplicit Stream.new ⟨0, 0⟩ []).isOk = false ↔
        ItemId.le ⟨0, 0⟩ Stream.new.maxId) ∧
      (∀ m, Stream.xaddExplicit Stream.new ⟨0, 0⟩ [] =
          .error (.streamInsertError (.idIsNotGreaterThanHighestStored m)) →
        m = Stream.new.maxId)) :=
  ⟨List.Pairwise.nil,
    xadd_explicit_fails_iff_le_max Stream.new ⟨0, 0⟩ [] List.Pairwise.nil⟩

/-! ### One-shot notification -/

theorem count_map_listener (listeners : List Nat) (key : String)
    (id : ItemId) (data : ItemData) (l : Nat) :
    (listeners.map (fun x => (x, key, id, data))).count (l, key, id, data) =
      listeners.count l := by
  induction listeners with
  | nil => rfl
  | cons hd tl ih =>
    simp only [List.map_cons, List.count_cons, ih, Prod.mk.injEq]
    by_cases hhd : hd = l
    · simp [hhd]
    · simp [hhd]

/-- C6: on a successful insertion, the inserted item is delivered to
every currently-registered listener exactly once (once per
registration, whichever producer inserts), the listener set is cleared,
and a subsequent insertion delivers nothing unless listeners
re-register. -/
theorem notify_one_shot_exactly_once :
    ∀ (s : NotifyingStream) (id : ItemId) (data : ItemData)
      (r : ItemId × NotifyingStream)
      (notif : List (Nat × String × ItemId × ItemData)),
      s.insert id data = .ok (r, notif) →
      (notif = s.listeners.map (fun l => (l, s.key, id, data))) ∧
      (∀ l : Nat, notif.count (l, s.key, id, data) = s.listeners.count l) ∧
      r.2.listeners = [] ∧
      (∀ id2 d2 r2 notif2, r.2.insert id2 d2 = .ok (r2, notif2) →
        notif2 = []) := by
  intro s id data r notif h
  unfold NotifyingStream.insert at h
  split at h
  · split at h
    · cases h
    · rw [Except.ok.injEq, Prod.mk.injEq] at h
      obtain ⟨h1, h2⟩ := h
      subst h1; subst h2
      refine ⟨rfl, ?_, rfl, ?_⟩
      · intro l; exact count_map_listener s.listeners s.key id data l
      · intro id2 d2 r2 notif2 h2
        unfold NotifyingStream.insert at h2
        split at h2
        · split at h2
          · cases h2
          · rw [Except.ok.injEq, Prod.mk.injEq] at h2
            exact h2.2.symm
        · rw [Except.ok.injEq, Prod.mk.injEq] at h2
          exact h2.2.symm
  · rw [Except.ok.injEq, Prod.mk.injEq] at h
    obtain ⟨h1, h2⟩ := h
    subst h1; subst h2
    refine ⟨rfl, ?_, rfl, ?_⟩
    · intro l; exact count_map_listener s.listeners s.key id data l
    · intro id2 d2 r2 notif2 h2
      unfold NotifyingStream.insert at h2
      split at h2
      · split at h2
        · cases h2
        · rw [Except.ok.injEq, Prod.mk.injEq] at h2
          exact h2.2.symm
      · rw [Except.ok.injEq, Prod.mk.injEq] at h2
        exact h2.2.symm

/-- Witness for C6 at a concrete registration: one listener (handle 7)
on an empty log receives the single inserted item exactly once. -/
theorem notify_one_shot_exactly_once_witness :
    (NotifyingStream.insert ⟨"s", [], [7]⟩ ⟨1, 1⟩ [] =
      .ok ((⟨1, 1⟩, ⟨"s", [(⟨1, 1⟩, [])], []⟩), [(7, "s", ⟨1, 1⟩, [])])) ∧
    (([((7 : Nat), "s", (⟨1, 1⟩ : ItemId), ([] : ItemData))] =
        [7].map (fun l => (l, "s", (⟨1, 1⟩ : ItemId), ([] : ItemData)))) ∧
      (∀ l : Nat, [((7 : Nat), "s", (⟨1, 1⟩ : ItemId), ([] : ItemData))].count
          (l, "s", ⟨1, 1⟩, []) = [7].count l) ∧
      (NotifyingStream.mk "s" [(⟨1, 1⟩, [])] []).listeners = [] ∧
      (∀ id2 d2 r2 notif2,
        (NotifyingStream.mk "s" [(⟨1, 1⟩, [])] []).insert id2 d2 =
          .ok (r2, notif2) → notif2 = [])) :=
  ⟨rfl, notify_one_shot_exactly_once ⟨"s", [], [7]⟩ ⟨1, 1⟩ []
    (⟨1, 1⟩, ⟨"s", [(⟨1, 1⟩, [])], []⟩) [(7, "s", ⟨1, 1⟩, [])] rfl⟩

/-! ### Range queries -/

theorem RBound.lowerOk_mono (lo : RBound) {a b : ItemId}
    (hab : ItemId.lt a b) (ha : lo.lowerOk a = true) : lo.lowerOk b = true := by
  cases lo with
  | unbounded => rfl
  | included i =>
    simp only [RBound.lowerOk, decide_eq_true_eq] at ha ⊢
    cases a; cases b; cases i
    simp only [ItemId.le, ItemId.lt] at hab ha ⊢
    omega
  | excluded i =>
    simp only [RBound.lowerOk, decide_eq_true_eq] at ha ⊢
    cases a; cases b; cases i
    simp only [ItemId.le, ItemId.lt] at hab ha ⊢
    omega

theorem RBound.upperOk_anti (hi : RBound) {a b : ItemId}
    (hab : ItemId.lt a b) (hb : hi.upperOk b = true) : hi.upperOk a = true := by
  cases hi with
  | unbounded => rfl
  | included i =>
    simp only [RBound.upperOk, decide_eq_true_eq] at hb ⊢
    cases a; cases b; cases i
    simp only [ItemId.le, ItemId.lt] at hab hb ⊢
    omega
  | excluded i =>
    simp only [RBound.upperOk, decide_eq_true_eq] at hb ⊢
    cases a; cases b; cases i
    simp only [ItemId.le, ItemId.lt] at hab hb ⊢
    omega

theorem dropWhile_lower_eq_filter (lo : RBound) :
    ∀ (l : List (ItemId × ItemData)),
      l.Pairwise (fun a b => ItemId.lt a.1 b.1) →
      l.dropWhile (fun p => ! lo.lowerOk p.1) =
        l.filter (fun p => lo.lowerOk p.1) := by
  intro l hs
  induction l with
  | nil => rfl
  | cons hd tl ih =>
    rcases List.pairwise_cons.mp hs with ⟨hhd, htl⟩
    rw [List.dropWhile_cons, List.filter_cons]
    by_cases hp : lo.lowerOk hd.1 = true
    · have hall : tl.filter (fun p => lo.lowerOk p.1) = tl :=
        List.filter_eq_self.mpr
          (fun b hb => RBound.lowerOk_mono lo (hhd b hb) hp)
      rw [hp]
      simp [hall]
    · have hp2 : lo.lowerOk hd.1 = false := by
        cases h2 : lo.lowerOk hd.1
        · rfl
        · exact absurd h2 hp
      rw [hp2]
      simp [ih htl]

theorem takeWhile_upper_eq_filter (hi : RBound) :
    ∀ (l : List (ItemId × ItemData)),
      l.Pairwise (fun a b => ItemId.lt a.1 b.1) →
      l.takeWhile (fun p => hi.upperOk p.1) =
        l.filter (fun p => hi.upperOk p.1) := by
  intro l hs
  induction l with
  | nil => rfl
  | cons hd tl ih =>
    rcases List.pairwise_cons.mp hs with ⟨hhd, htl⟩
    rw [List.takeWhile_cons, List.filter_cons]
    by_cases hp : hi.upperOk hd.1 = true
    · rw [hp]
      simp [ih htl]
    · have hp2 : hi.upperOk hd.1 = false := by
        cases h2 : hi.upperOk hd.1
        · rfl
        · exact absurd h2 hp
      have hnone : tl.filter (fun p => hi.upperOk p.1) = [] := by
        rw [List.filter_eq_nil_iff]
        intro b hb hpb
        exact hp (RBound.upperOk_anti hi (hhd b hb) hpb)
      rw [hp2]
      simp [hnone]

/-- On a sorted log, the contiguous `BTreeMap::range` slice is exactly
the filter by both bounds. -/
theorem Stream.range_eq_filter {s : Stream} (hs : s.Sorted)
    (lo hi : RBound) :
    s.range lo hi =
      s.items.filter (fun p => lo.lowerOk p.1 && hi.upperOk p.1) := by
  unfold Stream.range
  rw [dropWhile_lower_eq_filter lo s.items hs]
  have hs2 : (s.items.filter (fun p => lo.lowerOk p.1)).Pairwise
      (fun a b => ItemId.lt a.1 b.1) := hs.filter _
  rw [takeWhile_upper_eq_filter hi _ hs2]
  rw [List.filter_filter]
  apply List.filter_congr
  intro x _
  rw [Bool.and_comm]

/-- C5: on a sorted log the range query returns exactly the stored items
whose ids satisfy both bounds, in ascending id order; on the four-item
example log, the inclusive range `[1-2, 2-1]` yields exactly `1-2, 2-1`,
and the exclusive-lower/unbounded query from `2-1` yields exactly
`3-1`. -/
theorem range_exactly_bounds :
    (∀ (s : Stream) (lo hi : RBound), s.Sorted →
      s.range lo hi =
        s.items.filter (fun p => lo.lowerOk p.1 && hi.upperOk p.1) ∧
      (s.range lo hi).Pairwise (fun a b => ItemId.lt a.1 b.1)) ∧
    exampleLog.range (.included ⟨1, 2⟩) (.included ⟨2, 1⟩) =
      [(⟨1, 2⟩, [("c", "d")]), (⟨2, 1⟩, [("e", "f")])] ∧
    exampleLog.range (.excluded ⟨2, 1⟩) .unbounded =
      [(⟨3, 1⟩, [("g", "h")])] := by
  refine ⟨?_, rfl, rfl⟩
  intro s lo hi hs
  refine ⟨Stream.range_eq_filter hs lo hi, ?_⟩
  rw [Stream.range_eq_filter hs lo hi]
  exact hs.filter _

/-- Witness for C5 at the example log and the inclusive example
bounds. -/
theorem range_exactly_bounds_witness :
    Stream.Sorted exampleLog ∧
    (exampleLog.range (.included ⟨1, 2⟩) (.included ⟨2, 1⟩) =
        exampleLog.items.filter
          (fun p => (RBound.included ⟨1, 2⟩).lowerOk p.1 &&
            (RBound.included ⟨2, 1⟩).upperOk p.1) ∧
      (exampleLog.range (.included ⟨1, 2⟩) (.included ⟨2, 1⟩)).Pairwise
        (fun a b => ItemId.lt a.1 b.1)) :=
  ⟨by unfold Stream.Sorted exampleLog
      refine List.Pairwise.cons ?_ (List.Pairwise.cons ?_
        (List.Pairwise.cons ?_ (List.Pairwise.cons ?_ List.Pairwise.nil)))
      all_goals intro b hb
      all_goals fin_cases hb <;> simp [ItemId.lt],
   range_exactly_bounds.1 exampleLog (.included ⟨1, 2⟩) (.included ⟨2, 1⟩)
      (by unfold Stream.Sorted exampleLog
          refine List.Pairwise.cons ?_ (List.Pairwise.cons ?_
            (List.Pairwise.cons ?_ (List.Pairwise.cons ?_ List.Pairwise.nil)))
          all_goals intro b hb
          all_goals fin_cases hb <;> simp [ItemId.lt])⟩

/-- C9 counterexample: at wall-clock instant 3, `$` is parsed as the id
`3-0` — not the log's current maximum `5-0` — so the non-blocking XREAD
check on a log already holding `5-0` returns that pre-existing item,
whose id is not strictly greater than the log's maximum at call time. -/
theorem xread_dollar_counterexample :
    parse_item_id "$" 3 = .ok ⟨3, 0⟩ ∧
    futureLog.maxId = ⟨5, 0⟩ ∧
    futureLog.xreadCheck ⟨3, 0⟩ = [(⟨5, 0⟩, [("x", "y")])] ∧
    ¬ ItemId.lt futureLog.maxId ⟨5, 0⟩ :=
  ⟨rfl, rfl, rfl, by decide⟩

/-- C9 (amended): in an XREAD invocation, the id `$` denotes the pair
(current wall-clock milliseconds, 0), and the non-blocking check returns
exactly the stored items with ids strictly greater than that pair — the
log's tail only when every stored id lies below the current wall-clock
epoch. -/
theorem xread_dollar_is_wall_clock (now : Nat) (s : Stream)
    (hs : s.Sorted) :
    parse_item_id "$" now = .ok ⟨now, 0⟩ ∧
    s.xreadCheck ⟨now, 0⟩ =
      s.items.filter (fun p => decide (ItemId.lt ⟨now, 0⟩ p.1)) := by
  constructor
  · rfl
  · unfold Stream.xreadCheck
    rw [Stream.range_eq_filter hs]
    apply List.filter_congr
    intro x _
    simp [RBound.lowerOk, RBound.upperOk]

/-- Witness for the amended C9 at instant 3 on the one-item future
log. -/
theorem xread_dollar_is_wall_clock_witness :
    Stream.Sorted futureLog ∧
    (parse_item_id "$" 3 = .ok ⟨3, 0⟩ ∧
      futureLog.xreadCheck ⟨3, 0⟩ =
        futureLog.items.filter (fun p => decide (ItemId.lt ⟨3, 0⟩ p.1))) :=
  ⟨by unfold Stream.Sorted futureLog; exact List.pairwise_singleton _ _,
   xread_dollar_is_wall_clock 3 futureLog
     (by unfold Stream.Sorted futureLog; exact List.pairwise_singleton _ _)⟩

/-! ### Client-visible error messages -/

/-- C8 counterexample: the rendered messages differ from the claimed
ones — the code capitalizes "The" and names the "target stream top
item", not the "target log's top item". -/
theorem redis_error_message_counterexample :
    Error.redis_error_message
        (.streamInsertError (.idIsNotGreaterThanHighestStored ⟨5, 5⟩))
        "XADD" ≠
      "the ID specified in XADD is equal or smaller than the target log" ++
        sq ++ "s top item" ∧
    Error.redis_error_message (.itemIdParseError .tooLow) "XADD" ≠
      "the ID specified in XADD must be greater than 0-0" := by
  constructor <;> decide

/-- C8 (amended): for every command name `cmd`, a log-ordering violation
renders as exactly "The ID specified in {cmd} is equal or smaller than
the target stream top item" (whatever maximum id the error carries), and
a too-low Entry-ID violation renders as exactly "The ID specified in
{cmd} must be greater than 0-0". -/
theorem redis_error_message_exact (cmd : String) (m : ItemId) :
    Error.redis_error_message
        (.streamInsertError (.idIsNotGreaterThanHighestStored m)) cmd =
      "The ID specified in " ++ cmd ++
        " is equal or smaller than the target stream top item" ∧
    Error.redis_error_message (.itemIdParseError .tooLow) cmd =
      "The ID specified in " ++ cmd ++ " must be greater than 0-0" :=
  ⟨rfl, rfl⟩

/-! ### Association-list facts for the shared map -/

theorem hashInsert_fst {β : Type} (k : String) (v : β)
    (l : List (String × β)) : (hashInsert k v l).1 = hashLookup k l := by
  induction l with
  | nil => simp [hashInsert, hashLookup]
  | cons hd tl ih =>
    rcases hd with ⟨k2, v2⟩
    by_cases hk : k2 = k
    · simp [hashInsert, hashLookup, hk]
    · simp [hashInsert, hashLookup, hk, ih]

theorem hashLookup_insert_self {β : Type} (k : String) (v : β)
    (l : List (String × β)) : hashLookup k (hashInsert k v l).2 = some v := by
  induction l with
  | nil => simp [hashInsert, hashLookup]
  | cons hd tl ih =>
    rcases hd with ⟨k2, v2⟩
    by_cases hk : k2 = k
    · simp [hashInsert, hashLookup, hk]
    · simp [hashInsert, hashLookup, hk, ih]

theorem mem_map_fst_iff_lookup {β : Type} (k : String)
    (l : List (String × β)) :
    k ∈ l.map Prod.fst ↔ (hashLookup k l).isSome := by
  induction l with
  | nil => simp [hashLookup]
  | cons hd tl ih =>
    rcases hd with ⟨k2, v2⟩
    by_cases hk : k2 = k
    · subst hk; simp [hashLookup]
    · simp [hashLookup, hk, ih]
      intro h; exact absurd h.symm hk

/-- Unfolding of `get` on a bound key. -/
theorem get_of_lookup {st : DataStore} {now : Nat} {k : String}
    {dv : DataValue} (hl : hashLookup k st.data = some dv) :
    st.get now k = (match dv.expires_at with
      | some e => if e ≤ now then none else some dv.value
      | none => some dv.value) := by
  unfold DataStore.get DataStore.get_ref
  rw [hl]; rfl

/-- C3: `get` (and `get_ref`) returns the stored value exactly when the
entry is live — no expiry instant, or the current instant strictly
before it — and `none` otherwise; a key set with an already-past expiry
reads as absent, and a key set with no expiry reads back its value.
`get_ref` applies its projection under exactly the same condition. -/
theorem get_iff_live :
    (∀ (st : DataStore) (now : Nat) (k : String) (v : Value),
      st.get now k = some v ↔
        ∃ dv, hashLookup k st.data = some dv ∧ dv.live now ∧ v = dv.value) ∧
    (∀ (T : Type) (st : DataStore) (now : Nat) (k : String) (op : Value → T),
      st.get_ref now k op = (st.get now k).map op) ∧
    (∀ (st : DataStore) (now now2 : Nat) (k : String) (v : Value) (e : Nat),
      e ≤ now → (st.set now2 k v (some e)).2.get now k = none) ∧
    (∀ (st : DataStore) (now now2 : Nat) (k : String) (v : Value),
      (st.set now2 k v none).2.get now k = some v) := by
  refine ⟨?_, ?_, ?_, ?_⟩
  · intro st now k v
    unfold DataStore.get DataStore.get_ref
    cases hl : hashLookup k st.data with
    | none =>
      simp only [Option.none_bind]
      constructor
      · intro h; cases h
      · rintro ⟨dv, hdv, -⟩; cases hdv
    | some dv =>
      simp only [Option.some_bind]
      cases he : dv.expires_at with
      | none =>
        simp only [Option.some.injEq]
        constructor
        · intro h; exact ⟨dv, rfl, Or.inl he, h.symm⟩
        · rintro ⟨dv2, hdv2, -, hv⟩
          subst hdv2; exact hv.symm
      | some e =>
        dsimp only
        by_cases hle : e ≤ now
        · rw [if_pos hle]
          constructor
          · intro h; cases h
          · rintro ⟨dv2, hdv2, hlive, -⟩
            injection hdv2 with hdv2; subst hdv2
            rcases hlive with h0 | ⟨e2, he2, hnow⟩
            · rw [h0] at he; cases he
            · rw [he2] at he; injection he with he; omega
        · rw [if_neg hle]
          simp only [Option.some.injEq]
          constructor
          · intro h
            exact ⟨dv, rfl, Or.inr ⟨e, he, by omega⟩, h.symm⟩
          · rintro ⟨dv2, hdv2, -, hv⟩
            subst hdv2; exact hv.symm
  · intro T st now k op
    unfold DataStore.get DataStore.get_ref
    cases hashLookup k st.data with
    | none => rfl
    | some dv =>
      simp only [Option.some_bind]
      cases dv.expires_at with
      | none => rfl
      | some e => by_cases hle : e ≤ now <;> simp [hle]
  · intro st now now2 k v e hle
    unfold DataStore.get DataStore.get_ref DataStore.set
    rw [hashLookup_insert_self]
    simp [hle]
  · intro st now now2 k v
    unfold DataStore.get DataStore.get_ref DataStore.set
    rw [hashLookup_insert_self]
    rfl

/-- Witness for C3 at concrete inputs. -/
theorem get_iff_live_witness :
    (5 : Nat) ≤ 10 ∧
    (DataStore.set ⟨[]⟩ 0 "k" (.string "v") (some 5)).2.get 10 "k" = none :=
  ⟨by decide, get_iff_live.2.2.1 ⟨[]⟩ 10 0 "k" (.string "v") 5 (by decide)⟩

/-- C4: `set` returns the previous value exactly when a live prior entry
existed at call time, `none` when there was none or it had expired, and
the new value with its expiry overwrites the entry unconditionally,
whatever the prior value's type. -/
theorem set_prev_iff_live :
    (∀ (st : DataStore) (now : Nat) (k : String) (v : Value)
      (exp : Option Nat) (pv : Value),
      (st.set now k v exp).1 = some pv ↔
        ∃ dv, hashLookup k st.data = some dv ∧ dv.live now ∧ pv = dv.value) ∧
    (∀ (st : DataStore) (now : Nat) (k : String) (v : Value)
      (exp : Option Nat),
      hashLookup k (st.set now k v exp).2.data = some ⟨v, exp⟩) := by
  constructor
  · intro st now k v exp pv
    unfold DataStore.set
    simp only
    rw [hashInsert_fst]
    cases hl : hashLookup k st.data with
    | none =>
      simp only [Option.none_bind]
      constructor
      · intro h; cases h
      · rintro ⟨dv, hdv, -⟩; cases hdv
    | some dv =>
      simp only [Option.some_bind]
      cases he : dv.expires_at with
      | none =>
        simp only [Option.some.injEq]
        constructor
        · intro h; exact ⟨dv, rfl, Or.inl he, h.symm⟩
        · rintro ⟨dv2, hdv2, -, hv⟩
          subst hdv2; exact hv.symm
      | some e =>
        dsimp only
        by_cases hle : e ≤ now
        · rw [if_pos hle]
          constructor
          · intro h; cases h
          · rintro ⟨dv2, hdv2, hlive, -⟩
            injection hdv2 with hdv2; subst hdv2
            rcases hlive with h0 | ⟨e2, he2, hnow⟩
            · rw [h0] at he; cases he
            · rw [he2] at he; injection he with he; omega
        · rw [if_neg hle]
          simp only [Option.some.injEq]
          constructor
          · intro h
            exact ⟨dv, rfl, Or.inr ⟨e, he, by omega⟩, h.symm⟩
          · rintro ⟨dv2, hdv2, -, hv⟩
            subst hdv2; exact hv.symm
  · intro st now k v exp
    unfold DataStore.set
    exact hashLookup_insert_self k _ st.data

/-- C7: `keys` snapshots every currently-present key with no expiry
filtering, even though `get` reports expired keys as absent: membership
in `keys` coincides with presence in the map, and the concrete expired
entry is listed by `keys` while `get` returns `none` for it. -/
theorem keys_not_expiry_filtered :
    (∀ (st : DataStore) (k : String),
      k ∈ st.keys ↔ (hashLookup k st.data).isSome) ∧
    expiredStringStore.keys = ["k"] ∧
    expiredStringStore.get 10 "k" = none := by
  refine ⟨?_, rfl, rfl⟩
  intro st k
  unfold DataStore.keys
  exact mem_map_fst_iff_lookup k st.data

/-- C10: the log write path does not consult expiry, unlike `get`: on a
key whose entry expired, `get` is absent, yet `insert_stream_item`
appends to the existing expired log (the id still checked against that
log's stored maximum, the expiry preserved) and fails with a
type-mismatch on an expired string rather than creating a fresh log. -/
theorem insert_stream_item_ignores_expiry :
    ∀ (st : DataStore) (k : String) (dv : DataValue) (now e : Nat)
      (id : ItemId) (d : ItemData),
      hashLookup k st.data = some dv → dv.expires_at = some e → e ≤ now →
      (st.get now k = none) ∧
      (∀ s, dv.value = .stream s →
        st.insert_stream_item k id d =
          (match s.insert id d with
           | .error er => .error (.streamInsertError er)
           | .ok (i, s2) =>
             .ok (i, ⟨(hashInsert k ⟨.stream s2, some e⟩ st.data).2⟩))) ∧
      (∀ txt, dv.value = .string txt →
        st.insert_stream_item k id d = .error (.expectedOtherType "stream")) := by
  intro st k dv now e id d hl he hle
  refine ⟨?_, ?_, ?_⟩
  · rw [get_of_lookup hl, he]
    simp [hle]
  · intro s hs
    unfold DataStore.insert_stream_item
    rw [hl]
    dsimp only
    rw [hs]
    dsimp only
    rw [he]
  · intro txt hs
    unfold DataStore.insert_stream_item
    rw [hl]
    dsimp only
    rw [hs]

/-- Witness for C10 at concrete inputs: the expired-log store accepts an
append of `2-0` and the expired-string case is exercised through the
same theorem at a second instantiation. -/
theorem insert_stream_item_ignores_expiry_witness :
    (hashLookup "s" expiredStreamStore.data =
      some ⟨.stream ⟨[(⟨1, 1⟩, [])]⟩, some 5⟩) ∧
    ((expiredStreamStore.get 10 "s" = none) ∧
      (∀ s, (DataValue.mk (.stream ⟨[(⟨1, 1⟩, [])]⟩) (some 5)).value = .stream s →
        expiredStreamStore.insert_stream_item "s" ⟨2, 0⟩ [] =
          (match s.insert ⟨2, 0⟩ [] with
           | .error er => .error (.streamInsertError er)
           | .ok (i, s2) =>
             .ok (i, ⟨(hashInsert "s" ⟨.stream s2, some 5⟩
               expiredStreamStore.data).2⟩))) ∧
      (∀ txt, (DataValue.mk (.stream ⟨[(⟨1, 1⟩, [])]⟩) (some 5)).value = .string txt →
        expiredStreamStore.insert_stream_item "s" ⟨2, 0⟩ [] =
          .error (.expectedOtherType "stream"))) :=
  ⟨rfl, insert_stream_item_ignores_expiry expiredStreamStore "s"
    ⟨.stream ⟨[(⟨1, 1⟩, [])]⟩, some 5⟩ 10 5 ⟨2, 0⟩ [] rfl rfl (by decide)⟩

/-! ### Wire-codec round trip -/

theorem noCrLf_no13 {s : List Nat} (h : noCrLf s = true) :
    ∀ b ∈ s, b ≠ 13 := by
  intro b hb
  have h2 := List.all_eq_true.mp h b hb
  unfold notCrLf at h2
  simp only [Bool.and_eq_true, Bool.not_eq_true', beq_eq_false_iff_ne] at h2
  exact h2.1

theorem readUntilCrlf_append (s : List Nat) (rest : List Nat)
    (hs : ∀ b ∈ s, b ≠ 13) :
    readUntilCrlf (s ++ 13 :: 10 :: rest) = .ok (s, rest) := by
  induction s with
  | nil => rfl
  | cons b tl ih =>
    have hb : b ≠ 13 := hs b (List.mem_cons_self _ _)
    have htl : ∀ x ∈ tl, x ≠ 13 := fun x hx => hs x (List.mem_cons_of_mem _ hx)
    simp only [List.cons_append]
    unfold readUntilCrlf
    rw [if_neg hb, ih htl]

theorem toDigitsRev_lt (fuel : Nat) :
    ∀ (n : Nat), ∀ d ∈ toDigitsRev fuel n, d < 10 := by
  induction fuel with
  | zero => intro n d hd; cases hd
  | succ fuel ih =>
    intro n d hd
    unfold toDigitsRev at hd
    by_cases hn : n = 0
    · rw [if_pos hn] at hd; cases hd
    · rw [if_neg hn] at hd
      rcases List.mem_cons.mp hd with h | h
      · subst h; exact Nat.mod_lt _ (by omega)
      · exact ih _ d h

theorem toDigitsRev_eq_digits (fuel : Nat) :
    ∀ (n : Nat), n ≤ fuel → toDigitsRev fuel n = Nat.digits 10 n := by
  induction fuel with
  | zero =>
    intro n h
    have : n = 0 := by omega
    subst this
    simp [toDigitsRev]
  | succ fuel ih =>
    intro n h
    unfold toDigitsRev
    by_cases hn : n = 0
    · subst hn; simp
    · rw [if_neg hn]
      rw [Nat.digits_def' (by norm_num : (1 : Nat) < 10) (Nat.pos_of_ne_zero hn)]
      congr 1
      apply ih
      have : n / 10 < n := Nat.div_lt_self (Nat.pos_of_ne_zero hn) (by norm_num)
      omega

theorem natDecBytes_bounds (n : Nat) :
    ∀ b ∈ natDecBytes n, 48 ≤ b ∧ b ≤ 57 := by
  intro b hb
  unfold natDecBytes at hb
  by_cases hn : n = 0
  · rw [if_pos hn] at hb
    have : b = 48 := by simpa using hb
    omega
  · rw [if_neg hn] at hb
    rw [List.mem_map] at hb
    obtain ⟨d, hd, rfl⟩ := hb
    have := toDigitsRev_lt (n + 1) n d (List.mem_reverse.mp hd)
    omega

theorem natDecBytes_ne_nil (n : Nat) : natDecBytes n ≠ [] := by
  unfold natDecBytes
  by_cases hn : n = 0
  · simp [hn]
  · rw [if_neg hn, toDigitsRev_eq_digits (n + 1) n (by omega)]
    simp [Nat.digits_ne_nil_iff_ne_zero.mpr hn]

theorem parseDigitsAux_append (xs ys : List Nat) :
    ∀ (acc : Nat),
      parseDigitsAux (xs ++ ys) acc =
        match parseDigitsAux xs acc with
        | some a => parseDigitsAux ys a
        | none => none := by
  induction xs with
  | nil => intro acc; rfl
  | cons b tl ih =>
    intro acc
    simp only [List.cons_append]
    cases hdig : digit? b with
    | some d =>
      simp only [parseDigitsAux, hdig]
      exact ih _
    | none => simp only [parseDigitsAux, hdig]

theorem parseDigitsAux_rev (ds : List Nat) :
    ∀ (acc : Nat), (∀ d ∈ ds, d < 10) →
      parseDigitsAux (ds.reverse.map (fun d => d + 48)) acc =
        some (acc * 10 ^ ds.length + Nat.ofDigits 10 ds) := by
  induction ds with
  | nil =>
    intro acc _
    simp [parseDigitsAux, Nat.ofDigits_nil]
  | cons d tl ih =>
    intro acc hall
    have hd10 : d < 10 := hall d (List.mem_cons_self _ _)
    have htl : ∀ x ∈ tl, x < 10 := fun x hx => hall x (List.mem_cons_of_mem _ hx)
    simp only [List.reverse_cons, List.map_append, List.map_cons, List.map_nil]
    rw [parseDigitsAux_append]
    rw [ih acc htl]
    have hdig : digit? (d + 48) = some d := by
      unfold digit?
      rw [if_pos (by omega)]
      simp
    dsimp only
    simp only [parseDigitsAux, hdig]
    rw [Nat.ofDigits_cons, List.length_cons]
    exact congrArg some (by ring)

theorem parseDigits_natDecBytes (n : Nat) :
    parseDigits (natDecBytes n) = some n := by
  by_cases hn : n = 0
  · subst hn; rfl
  · unfold parseDigits natDecBytes
    rw [if_neg hn, toDigitsRev_eq_digits (n + 1) n (by omega)]
    rw [if_neg (by simp [Nat.digits_ne_nil_iff_ne_zero.mpr hn])]
    rw [parseDigitsAux_rev (Nat.digits 10 n) 0
      (fun d hd => Nat.digits_lt_base (by norm_num) hd)]
    rw [Nat.ofDigits_digits]
    simp

theorem parseIsizeBytes_natDec (n : Nat) (h : n < 2 ^ 63) :
    parseIsizeBytes (natDecBytes n) = .ok (n : Int) := by
  cases hshape : natDecBytes n with
  | nil => exact absurd hshape (natDecBytes_ne_nil n)
  | cons b tl =>
    have hb : 48 ≤ b ∧ b ≤ 57 :=
      natDecBytes_bounds n b (by rw [hshape]; exact List.mem_cons_self _ _)
    unfold parseIsizeBytes
    dsimp only
    rw [if_neg (by omega : ¬ b = 45), if_neg (by omega : ¬ b = 43)]
    rw [← hshape, parseDigits_natDecBytes n]
    dsimp only
    rw [if_pos h]

theorem parseIsizeLine_natDec (n : Nat) (h : n < 2 ^ 63) (rest : List Nat) :
    parseIsizeLine (natDecBytes n ++ 13 :: 10 :: rest) = .ok ((n : Int), rest) := by
  unfold parseIsizeLine
  rw [readUntilCrlf_append _ _
    (fun b hb => by have := natDecBytes_bounds n b hb; omega)]
  dsimp only
  rw [parseIsizeBytes_natDec n h]

theorem readExact_append (s rest : List Nat) :
    readExact s.length (s ++ rest) = .ok (s, rest) := by
  unfold readExact
  rw [if_neg (by simp [List.length_append])]
  rw [List.take_left, List.drop_left]

theorem one_le_depth (v : RespType) : 1 ≤ RespType.depth v := by
  cases v <;> simp [RespType.depth]

/-- Reduction of the parser on a leading `+`. -/
theorem parseT_plus (fuel : Nat) (l : List Nat) :
    parseT (fuel + 1) (43 :: l) = parseSimple l := rfl

/-- Reduction of the parser on a leading `$`. -/
theorem parseT_dollar (fuel : Nat) (l : List Nat) :
    parseT (fuel + 1) (36 :: l) = parseBulk l := rfl

/-- Reduction of the parser on a leading `*`. -/
theorem parseT_star (fuel : Nat) (l : List Nat) :
    parseT (fuel + 1) (42 :: l) =
      (match parseIsizeLine l with
       | .error e => .error e
       | .ok (n, rest2) =>
         if n < 0 then .ok (.nullArray, rest2)
         else
           match parseNGen (parseT fuel) n.toNat rest2 with
           | .error e => .error e
           | .ok (elems, rest3) => .ok (.array elems, rest3)) := rfl

/-- The central fuelled round trip: a well-formed wire value, written and
then parsed with fuel at least its depth, is reproduced exactly,
consuming exactly its bytes. -/
theorem parseT_write : ∀ (fuel : Nat) (v : RespType) (rest : List Nat),
    RespType.wf v = true → RespType.depth v ≤ fuel →
    parseT fuel (RespType.write v ++ rest) = .ok (v, rest) := by
  intro fuel
  induction fuel with
  | zero =>
    intro v rest _ hd
    have := one_le_depth v
    omega
  | succ fuel ih =>
    intro v rest hwf hd
    cases v with
    | simpleError kind msg => simp [RespType.wf] at hwf
    | simpleString s =>
      simp only [RespType.wf, Bool.and_eq_true] at hwf
      have h1 : RespType.write (.simpleString s) ++ rest =
          43 :: (s ++ 13 :: 10 :: rest) := by
        simp [RespType.write]
      rw [h1, parseT_plus]
      unfold parseSimple
      rw [readUntilCrlf_append s rest (noCrLf_no13 hwf.1)]
      dsimp only
      rw [hwf.2]
      rfl
    | bulkString s =>
      simp only [RespType.wf, Bool.and_eq_true, decide_eq_true_eq] at hwf
      obtain ⟨⟨hnc, hu⟩, hlen⟩ := hwf
      have h1 : RespType.write (.bulkString s) ++ rest =
          36 :: (natDecBytes s.length ++ 13 :: 10 :: (s ++ 13 :: 10 :: rest)) := by
        simp [RespType.write]
      rw [h1, parseT_dollar]
      unfold parseBulk
      rw [parseIsizeLine_natDec s.length hlen]
      dsimp only
      rw [if_neg (by omega : ¬ ((s.length : Int) < 0))]
      rw [show ((s.length : Int)).toNat = s.length from rfl]
      rw [readExact_append s (13 :: 10 :: rest)]
      dsimp only
      rw [show expectCrlf (13 :: 10 :: rest) = .ok rest from rfl]
      dsimp only
      rw [hu]
      rfl
    | nullString => rfl
    | nullArray => rfl
    | null => rfl
    | array l =>
      simp only [RespType.wf, Bool.and_eq_true, decide_eq_true_eq] at hwf
      obtain ⟨hlen, hwfel⟩ := hwf
      have hdep : depthElems l ≤ fuel := by
        simp only [RespType.depth] at hd; omega
      have h1 : RespType.write (.array l) ++ rest =
          42 :: (natDecBytes l.length ++ 13 :: 10 :: (writeElems l ++ rest)) := by
        simp [RespType.write]
      rw [h1, parseT_star]
      rw [parseIsizeLine_natDec l.length hlen]
      dsimp only
      rw [if_neg (by omega : ¬ ((l.length : Int) < 0))]
      rw [show ((l.length : Int)).toNat = l.length from rfl]
      have hN : ∀ (l2 : List RespType) (r2 : List Nat), wfElems l2 = true →
          depthElems l2 ≤ fuel →
          parseNGen (parseT fuel) l2.length (writeElems l2 ++ r2) =
            .ok (l2, r2) := by
        intro l2
        induction l2 with
        | nil => intro r2 _ _; rfl
        | cons hd2 tl ihl =>
          intro r2 hwf2 hdep2
          simp only [wfElems, Bool.and_eq_true] at hwf2
          simp only [depthElems, Nat.max_le] at hdep2
          rw [show writeElems (hd2 :: tl) ++ r2 =
            RespType.write hd2 ++ (writeElems tl ++ r2) from by
              simp [writeElems]]
          rw [List.length_cons]
          unfold parseNGen
          rw [ih hd2 (writeElems tl ++ r2) hwf2.1 hdep2.1]
          dsimp only
          rw [ihl r2 hwf2.2 hdep2.2]
      rw [hN l rest hwfel hdep]

mutual

/-- Depth never exceeds the encoded length (each nesting level writes at
least one byte), so fuel `length + 1` always suffices. -/
theorem depth_le_writeLen : ∀ (v : RespType),
    RespType.depth v ≤ (RespType.write v).length
  | .simpleError kind msg => by
    simp [RespType.depth, RespType.write]
  | .simpleString s => by simp [RespType.depth, RespType.write]
  | .bulkString s => by simp [RespType.depth, RespType.write]
  | .nullString => by simp [RespType.depth, RespType.write]
  | .nullArray => by simp [RespType.depth, RespType.write]
  | .null => by simp [RespType.depth, RespType.write]
  | .array l => by
    have h := depthElems_le_writeElemsLen l
    simp only [RespType.depth, RespType.write, List.length_cons,
      List.length_append]
    omega

/-- Companion bound over array elements. -/
theorem depthElems_le_writeElemsLen : ∀ (l : List RespType),
    depthElems l ≤ (writeElems l).length
  | [] => by simp [depthElems, writeElems]
  | v :: tl => by
    have h1 := depth_le_writeLen v
    have h2 := depthElems_le_writeElemsLen tl
    simp only [depthElems, writeElems, List.length_append, Nat.max_le]
    omega

end

/-- C2 (amended): every constructible Wire Value that contains no
simple-error variant — bounded nesting depth, textual payloads valid
UTF-8 with no embedded CR/LF — is reproduced exactly by `write` then
`parse`, which consumes exactly its bytes and leaves the rest. -/
theorem resp_write_then_parse (v : RespType) (rest : List Nat)
    (hwf : RespType.wf v = true) :
    RespType.parse (RespType.write v ++ rest) = .ok (v, rest) := by
  unfold RespType.parse
  apply parseT_write _ v rest hwf
  have h1 := depth_le_writeLen v
  simp only [List.length_append]
  omega

/-- Witness for the amended C2 on a concrete nested value with a
trailing byte. -/
theorem resp_write_then_parse_witness :
    RespType.wf (.array [.simpleString [104, 105], .bulkString [104, 105],
      .nullString, .array [.null], .nullArray]) = true ∧
    RespType.parse (RespType.write (.array [.simpleString [104, 105],
        .bulkString [104, 105], .nullString, .array [.null], .nullArray])
        ++ [99]) =
      .ok (.array [.simpleString [104, 105], .bulkString [104, 105],
        .nullString, .array [.null], .nullArray], [99]) :=
  ⟨rfl, resp_write_then_parse _ [99] rfl⟩

/-- C2 counterexample: a simple error whose message is plain ASCII with
no CR/LF (satisfying every other hypothesis of the claim) does not
round-trip — `write` emits a leading `-`, and `parse` has no `-` branch,
failing with an unknown-type-specifier error instead of reproducing the
value. -/
theorem resp_simple_error_not_reparsed :
    noCrLf [120] = true ∧ utf8Valid [120] = true ∧
    RespType.parse (RespType.write (.simpleError .generic [120])) =
      .error (.unknownTypeSpecifier 45) :=
  ⟨rfl, rfl, rfl⟩

end Redis
